import Mathlib

/-!
Shallow embedding of the retrieval/ranking core and queue state machine of the
sail-away-posts-generator repository, covering:

* `packages/core/src/rag.ts` — cosine retrieval (`retrieveForTopic`), seed-candidate
  scoring (`computeRecencyScore`, `computeEngagementScore`, `pickSeedCandidates`),
  topic-seed validation (`parseTopicSeeds`), and strict topic avoidance
  (`applyTopicAvoidanceStrict`);
* the queue API handlers (`/queue/replace`, `/queue/swap`, `/queue/remove`) and their
  helpers `startOfUpcomingWeekMonday`, `withWeeklySlots`, `buildQueueFromTopics`,
  `parseTopicsText`.

Modelling conventions:

* JavaScript numbers in scoring code are modelled over an arbitrary linear ordered
  field `α`; the transcendental helpers `Math.sqrt` and `Math.log1p` are passed in as
  explicit function parameters (`sq`, `lg`), so every definition stays executable.
* `Array.prototype.sort` with a consistent comparator is a stable sort and is modelled
  by `List.insertionSort`; the call `pool.sort(() => Math.random() - 0.5)` is an
  arbitrary reordering and is modelled by an explicit `shuffle` parameter, constrained
  (where a claim needs it) to be a permutation.
* Dates are modelled as whole-day counts since the Unix epoch (the code zeroes the
  time of day with `setUTCHours(0,0,0,0)` and then only does whole-day arithmetic via
  `setUTCDate`, which is exact at UTC). `formatDateOnly` renders such a day injectively
  as `YYYY-MM-DD`, so equalities and day arithmetic on the rendered strings correspond
  exactly to equalities and arithmetic on day numbers.
* `Date.parse(published_at)` is modelled as an `Option Int` field (`none` for an
  unparsable date, `some ms` otherwise).
-/

/- Batteries marks the arithmetic of `Rat` irreducible; restore the default
reducibility so that concrete witnesses and counterexamples evaluate by
`decide`/`rfl`. -/
attribute [local semireducible] Rat.add Rat.sub Rat.mul Rat.inv

namespace SailAway

/-! ### Data model (`packages/core/src/history.ts`) -/

/-- An indexed historical post: `IndexedPost` from `history.ts`.  `publishedAtMs` is
the result of `Date.parse(published_at)` (`none` when `NaN`); `reactions` is
`metrics?.reactions`. -/
structure IndexedPost where
  id : String
  channel : String
  sourceFile : String
  publishedAtMs : Option Int
  text : String
  reactions : Option Int
deriving DecidableEq, Repr

/-- Modelled from the spec: the post *category* (`own` vs `similar`) is "derived from
the source location" — history files are loaded from `history/own-channel/*.json` and
`history/similar/*.json`.  The TypeScript `IndexedPost` record carries only the raw
`sourceFile` path; no category field and no category-based filter exists anywhere in
the source. -/
def category (p : IndexedPost) : String :=
  if List.isPrefixOf "history/own-channel/".data p.sourceFile.data then "own" else "similar"

/-! ### Retrieval (`rag.ts`: `dot`, `norm`, `cosineSimilarity`, `retrieveForTopic`) -/

section Retrieval

variable {α : Type} [LinearOrderedField α]

/-- `dot` from `rag.ts`.  (The JS loop reads `b[i]` for `i < a.length`; the two
embedding vectors always have the same length in every call site, which `zip`
models exactly.) -/
def dotProduct (a b : List α) : α :=
  ((a.zip b).map fun p => p.1 * p.2).sum

/-- `norm` from `rag.ts`; `sq` stands for `Math.sqrt`. -/
def vecNorm (sq : α → α) (a : List α) : α :=
  sq (dotProduct a a)

/-- `cosineSimilarity` from `rag.ts`. -/
def cosineSimilarity (sq : α → α) (a b : List α) : α :=
  let denom := vecNorm sq a * vecNorm sq b
  if denom = 0 then 0 else dotProduct a b / denom

/-- The local `ranked` of `retrieveForTopic` in `rag.ts`: every post paired with its
cosine similarity to the topic embedding, stably sorted by score descending
(`.sort((a, b) => b.score - a.score)`). -/
def rankedCandidates (sq : α → α) (topicEmbedding : List α) (posts : List IndexedPost)
    (postEmbeddings : List (List α)) : List (IndexedPost × α) :=
  List.insertionSort (fun a b => b.2 ≤ a.2)
    (posts.mapIdx fun idx post =>
      (post, cosineSimilarity sq topicEmbedding (postEmbeddings.getD idx [])))

/-- The local `pool` of `retrieveForTopic` in `rag.ts`: the top
`min(ranked.length, max(topK*3, topK))` ranked candidates. -/
def diversityPool (sq : α → α) (topicEmbedding : List α) (posts : List IndexedPost)
    (postEmbeddings : List (List α)) (topK : Nat) : List (IndexedPost × α) :=
  let ranked := rankedCandidates sq topicEmbedding posts postEmbeddings
  ranked.take (min ranked.length (max (topK * 3) topK))

/-- `retrieveForTopic` from `rag.ts`:
ranks all posts by cosine similarity (stable sort, descending), keeps the top
`min(ranked.length, max(topK*3, topK))` as the diversity pool, shuffles the pool with
an inconsistent random comparator (`pool.sort(() => Math.random() - 0.5)`, modelled by
the `shuffle` parameter), and returns the first `topK` posts of the shuffled pool. -/
def retrieveForTopic (sq : α → α)
    (shuffle : List (IndexedPost × α) → List (IndexedPost × α))
    (topicEmbedding : List α) (posts : List IndexedPost)
    (postEmbeddings : List (List α)) (topK : Nat) : List IndexedPost :=
  (((shuffle (diversityPool sq topicEmbedding posts postEmbeddings topK)).take topK).map
    Prod.fst)

/-- Every ranked candidate is one of the input posts. -/
theorem fst_mem_of_mem_rankedCandidates (sq : α → α) (topicEmbedding : List α)
    (posts : List IndexedPost) (postEmbeddings : List (List α))
    (pr : IndexedPost × α)
    (hpr : pr ∈ rankedCandidates sq topicEmbedding posts postEmbeddings) :
    pr.1 ∈ posts := by
  unfold rankedCandidates at hpr
  have hperm := List.perm_insertionSort
    (fun (a b : IndexedPost × α) => b.2 ≤ a.2)
    (posts.mapIdx fun idx post =>
      (post, cosineSimilarity sq topicEmbedding (postEmbeddings.getD idx [])))
  have hmem := hperm.mem_iff.mp hpr
  rw [List.mapIdx_eq_enum_map] at hmem
  rcases List.mem_map.mp hmem with ⟨⟨i, q⟩, hq, hval⟩
  have : q ∈ posts.enum.map Prod.snd := List.mem_map_of_mem Prod.snd hq
  rw [List.enum_map_snd] at this
  rw [← hval]
  simpa [Function.uncurry] using this

/-- Every post returned by the retrieval is one of the input posts, for every possible
shuffle of the diversity pool. -/
theorem retrieveForTopic_mem_posts (sq : α → α)
    (shuffle : List (IndexedPost × α) → List (IndexedPost × α))
    (hs : ∀ l, (shuffle l).Perm l)
    (topicEmbedding : List α) (posts : List IndexedPost)
    (postEmbeddings : List (List α)) (topK : Nat)
    (p : IndexedPost)
    (hp : p ∈ retrieveForTopic sq shuffle topicEmbedding posts postEmbeddings topK) :
    p ∈ posts := by
  unfold retrieveForTopic at hp
  rcases List.mem_map.mp hp with ⟨pr, hpr, hval⟩
  have hpool : pr ∈ diversityPool sq topicEmbedding posts postEmbeddings topK :=
    (hs _).mem_iff.mp (List.mem_of_mem_take hpr)
  have hranked : pr ∈ rankedCandidates sq topicEmbedding posts postEmbeddings :=
    List.mem_of_mem_take hpool
  have := fst_mem_of_mem_rankedCandidates sq topicEmbedding posts postEmbeddings pr hranked
  rwa [hval] at this

end Retrieval

/-! ### Concrete posts used in the retrieval counterexamples and witnesses -/

/-- A post loaded from the own-channel source location. -/
def ownPostC1 : IndexedPost :=
  ⟨"own-1", "sail-away", "history/own-channel/2024.json", none, "собственный пост", none⟩

def chanA1 : IndexedPost := ⟨"a-1", "chanA", "history/similar/a.json", none, "пост 1", none⟩

def chanA2 : IndexedPost := ⟨"a-2", "chanA", "history/similar/a.json", none, "пост 2", none⟩

def chanA3 : IndexedPost := ⟨"a-3", "chanA", "history/similar/a.json", none, "пост 3", none⟩

def chanB1 : IndexedPost := ⟨"b-1", "chanB", "history/similar/b.json", none, "пост 4", none⟩

/-- C1, counterexample.  `retrieveForTopic` applies no category filter: on a corpus
consisting of a single post loaded from `history/own-channel/`, with `topK = 1`, the
returned evidence list is exactly that own-category post (and with a singleton
diversity pool every possible random shuffle returns the same list, so this outcome is
not an artifact of resolving the shuffle to the identity). -/
theorem retrieval_returns_own_post :
    ownPostC1 ∈ retrieveForTopic (α := ℚ) id id [] [ownPostC1] [] 1 ∧
      category ownPostC1 = "own" := by
  constructor
  · decide
  · decide

/-- C1, amended.  The per-topic retrieval draws from the full input post list with no
category-based exclusion: every returned post is an element of the input list, whatever
its source location; in particular own-category posts may be returned. -/
theorem retrieval_no_scope_filter (sq : ℚ → ℚ)
    (shuffle : List (IndexedPost × ℚ) → List (IndexedPost × ℚ))
    (hs : ∀ l, (shuffle l).Perm l)
    (topicEmbedding : List ℚ) (posts : List IndexedPost)
    (postEmbeddings : List (List ℚ)) (topK : Nat)
    (p : IndexedPost)
    (hp : p ∈ retrieveForTopic sq shuffle topicEmbedding posts postEmbeddings topK) :
    p ∈ posts :=
  retrieveForTopic_mem_posts sq shuffle hs topicEmbedding posts postEmbeddings topK p hp

/-- C1, witness for the amended theorem at a concrete input. -/
theorem retrieval_no_scope_filter_witness : ownPostC1 ∈ [ownPostC1] :=
  retrieval_no_scope_filter id id (fun l => List.Perm.refl l) [] [ownPostC1] [] 1
    ownPostC1 (by decide)


/-- C2, counterexample.  No per-channel diversity cap is enforced: on a corpus of
three posts from channel `chanA` and one from channel `chanB`, with `topK = 4`, the
returned set has size 4 ≥ 3, is drawn from 2 distinct channels, and channel `chanA`
contributes 3 > 2 posts.  The whole corpus ends up in the diversity pool and in the
result, so every possible random shuffle yields the same returned set of posts (only
their order can vary); the shuffle is resolved here to the order-preserving one. -/
theorem retrieval_no_channel_cap_counterexample :
    retrieveForTopic (α := ℚ) id id [] [chanA1, chanA2, chanA3, chanB1] [] 4
        = [chanA1, chanA2, chanA3, chanB1] ∧
      ((retrieveForTopic (α := ℚ) id id [] [chanA1, chanA2, chanA3, chanB1] [] 4).countP
          fun p => p.channel == "chanA") = 3 ∧
      (((retrieveForTopic (α := ℚ) id id [] [chanA1, chanA2, chanA3, chanB1] [] 4).map
          IndexedPost.channel).dedup).length = 2 ∧
      ¬ (3 : Nat) ≤ 2 := by
  refine ⟨by decide, by decide, by decide, by decide⟩

/-- C2, amended.  The selection applies no per-channel cap: for every possible shuffle
of the diversity pool, the returned list is simply the `topK`-prefix of some
permutation of the top-`min(ranked.length, max(topK*3, topK))` ranked candidates, so a
single channel may contribute every returned post (as the counterexample shows). -/
theorem retrieval_returns_shuffled_pool (sq : ℚ → ℚ)
    (shuffle : List (IndexedPost × ℚ) → List (IndexedPost × ℚ))
    (hs : ∀ l, (shuffle l).Perm l)
    (topicEmbedding : List ℚ) (posts : List IndexedPost)
    (postEmbeddings : List (List ℚ)) (topK : Nat) :
    ∃ l : List (IndexedPost × ℚ),
      l.Perm (diversityPool sq topicEmbedding posts postEmbeddings topK) ∧
        retrieveForTopic sq shuffle topicEmbedding posts postEmbeddings topK
          = (l.take topK).map Prod.fst :=
  ⟨shuffle (diversityPool sq topicEmbedding posts postEmbeddings topK), hs _, rfl⟩

/-- C2, witness for the amended theorem at a concrete input. -/
theorem retrieval_returns_shuffled_pool_witness :
    ∃ l : List (IndexedPost × ℚ),
      l.Perm (diversityPool (α := ℚ) id [] [chanA1, chanA2, chanA3, chanB1] [] 4) ∧
        retrieveForTopic (α := ℚ) id id [] [chanA1, chanA2, chanA3, chanB1] [] 4
          = (l.take 4).map Prod.fst :=
  retrieval_returns_shuffled_pool id id (fun l => List.Perm.refl l) []
    [chanA1, chanA2, chanA3, chanB1] [] 4

/-- C8, counterexample.  The retrieval is not deterministic: on the two-post corpus
`[chanA1, chanB1]` with `topK = 1`, the execution in which the random comparator
preserves the pool order returns `[chanA1]`, while the execution in which it reverses
the pool returns `[chanB1]` — two invocations on identical inputs that return
different ordered lists.  The final conjunct records that the reversal is a legitimate
resolution of the shuffle (a permutation of the pool). -/
theorem retrieval_nondeterministic :
    retrieveForTopic (α := ℚ) id id [] [chanA1, chanB1] [] 1 = [chanA1] ∧
      retrieveForTopic (α := ℚ) id List.reverse [] [chanA1, chanB1] [] 1 = [chanB1] ∧
      ([chanA1] : List IndexedPost) ≠ [chanB1] ∧
      (List.reverse (diversityPool (α := ℚ) id [] [chanA1, chanB1] [] 1)).Perm
        (diversityPool (α := ℚ) id [] [chanA1, chanB1] [] 1) :=
  ⟨by decide, by decide, by decide, List.reverse_perm _⟩

/-- C8, amended.  The retrieval is pure but deterministic only up to the random
shuffle of its diversity pool: its output is a `topK`-prefix of a shuffle-dependent
permutation of the pool, so identical inputs may yield differently ordered results
across invocations; it performs no I/O and cannot fail, and an empty `posts` list
yields an empty result under every possible shuffle. -/
theorem retrieval_empty_posts_empty_result (sq : ℚ → ℚ)
    (shuffle : List (IndexedPost × ℚ) → List (IndexedPost × ℚ))
    (hs : ∀ l, (shuffle l).Perm l)
    (topicEmbedding : List ℚ) (postEmbeddings : List (List ℚ)) (topK : Nat) :
    retrieveForTopic sq shuffle topicEmbedding [] postEmbeddings topK = [] := by
  have hpool : diversityPool (α := ℚ) sq topicEmbedding [] postEmbeddings topK = [] := by
    unfold diversityPool rankedCandidates
    simp
  unfold retrieveForTopic
  rw [hpool, List.Perm.eq_nil (hs [])]
  simp

/-- C8, witness for the amended theorem at a concrete input. -/
theorem retrieval_empty_posts_empty_result_witness :
    retrieveForTopic (α := ℚ) id id [] [] [[1, 2]] 3 = [] :=
  retrieval_empty_posts_empty_result id id (fun l => List.Perm.refl l) [] [[1, 2]] 3

/-! ### Character-list models of the JavaScript string helpers

`String.trim`, `String.split` and friends in the TypeScript source operate on
sequences of characters; they are modelled here on `List Char` (the byte-position
based Lean `String` primitives do not evaluate inside the kernel, so the
definitions below re-implement exactly the JS behavior on the character level). -/

/-- JS `String.prototype.trim`, on the character level: drop leading and trailing
whitespace. -/
def trimChars (cs : List Char) : List Char :=
  ((cs.dropWhile Char.isWhitespace).reverse.dropWhile Char.isWhitespace).reverse

/-- JS `String.prototype.trim`. -/
def trimStr (s : String) : String :=
  String.mk (trimChars s.data)

/-- JS `String.prototype.split(sep)` for a one-character separator, on the character
level: split into the (possibly empty) chunks between separator occurrences. -/
def splitOnChar (sep : Char) : List Char → List (List Char)
  | [] => [[]]
  | c :: rest =>
    if c = sep then [] :: splitOnChar sep rest
    else
      match splitOnChar sep rest with
      | [] => [[c]]
      | chunk :: chunks => (c :: chunk) :: chunks

/-- JS `raw.split("\n")`. -/
def splitLines (s : String) : List String :=
  (splitOnChar (Char.ofNat 10) s.data).map String.mk

/-! ### Queue data model (`packages/core/src/planner.ts`, `apps/api/src/planStore.ts`) -/

/-- The `objective` union type of `PlanItem` in `planner.ts`. -/
inductive Objective where
  | engagement
  | storytelling
  | promotion
deriving DecidableEq, Repr, Inhabited

/-- The `tone` union type of `PlanItem` in `planner.ts`. -/
inductive Tone where
  | inspiring
  | casual
  | adventure
deriving DecidableEq, Repr, Inhabited

/-- `PlanItem` from `planner.ts`. -/
structure PlanItem where
  rank : Nat
  topic : String
  objective : Objective
  tone : Tone
  cta : String
  sourcePostIds : List String
deriving DecidableEq, Repr, Inhabited

/-- `QueueItem` from `planStore.ts`: a `PlanItem` plus the weekly slot.  `weekStart`
and `weekEnd` hold the epoch-day numbers rendered by `formatDateOnly` (see the header
comment on the date model). -/
structure QueueItem extends PlanItem where
  weekIndex : Nat
  weekStart : Int
  weekEnd : Int
deriving DecidableEq, Repr, Inhabited

/-! ### Weekly slots (`apps/api/src/index.ts`: `startOfUpcomingWeekMonday`,
`withWeeklySlots`, `buildQueueFromTopics`, `parseTopicsText`) -/

/-- JS `Date.prototype.getUTCDay` on an epoch-day number: 0 = Sunday … 6 = Saturday
(day 0 = 1970-01-01 was a Thursday, hence the offset 4). -/
def getUTCDay (d : Int) : Int :=
  (d + 4) % 7

/-- `startOfUpcomingWeekMonday` from the API server: truncate to the UTC day and add
`day === 0 ? 1 : 8 - day` days. -/
def startOfUpcomingWeekMonday (d : Int) : Int :=
  if getUTCDay d = 0 then d + 1 else d + (8 - getUTCDay d)

/-- `withWeeklySlots` from the API server: re-rank the given plan items 1..N and
assign week `i` (0-based) the window `[start + 7*i, start + 7*i + 6]` where `start`
is `startOfUpcomingWeekMonday(now)`. -/
def withWeeklySlots (now : Int) (topics : List PlanItem) : List QueueItem :=
  let start := startOfUpcomingWeekMonday now
  topics.mapIdx fun index item =>
    { toPlanItem := { item with rank := index + 1 }
      weekIndex := index + 1
      weekStart := start + (index : Int) * 7
      weekEnd := start + (index : Int) * 7 + 6 }

/-- The default CTA used by `buildQueueFromTopics` when no previous item exists. -/
def defaultCta : String := "Поделитесь вашим опытом в комментариях"

/-- `buildQueueFromTopics` from the API server: one plan item per topic, inheriting
`objective`/`tone`/`cta`/`sourcePostIds` from the index-aligned item of `baseQueue`
(falling back to `baseQueue[0]`, then to defaults), then `withWeeklySlots`. -/
def buildQueueFromTopics (now : Int) (topics : List String) (baseQueue : List QueueItem) :
    List QueueItem :=
  let fallback := baseQueue.head?
  let planItems : List PlanItem := topics.mapIdx fun index topic =>
    let source := (baseQueue.get? index).orElse fun _ => fallback
    { rank := index + 1
      topic := topic
      objective := (source.map fun s => s.objective).getD Objective.engagement
      tone := (source.map fun s => s.tone).getD Tone.casual
      cta := (source.map fun s => s.cta).getD defaultCta
      sourcePostIds := (source.map fun s => s.sourcePostIds).getD [] }
  withWeeklySlots now planItems

/-- `parseTopicsText` from the API server: split on newlines, trim, drop empties,
strip an optional leading ordinal prefix (regex `^\d+\.\s*`: one or more digits, a
dot, then optional whitespace), trim again and drop empties. -/
def stripOrdinal (cs : List Char) : List Char :=
  match cs.takeWhile Char.isDigit, cs.dropWhile Char.isDigit with
  | _ :: _, '.' :: tail => tail.dropWhile Char.isWhitespace
  | _, _ => cs

def parseTopicsText (raw : String) : List String :=
  let lines := ((splitLines raw).map trimStr).filter fun line => line != ""
  (lines.map fun line => trimStr (String.mk (stripOrdinal line.data))).filter fun t => t != ""

/-! ### Queue mutation routes (`/queue/replace`, `/queue/swap`, `/queue/remove` of
the API server).  Each route loads the persisted queue, validates the request and
saves the rebuilt queue; the handlers are modelled as functions of the loaded queue
and the request fields, returning the queue that gets persisted (or the 4xx error the
route replies with). -/

inductive QueueError where
  | needAtLeastTwoItems
  | positionOutOfRange
  | emptyTopics
deriving DecidableEq, Repr

/-- The request body of `POST /queue/replace`. -/
structure ReplaceBody where
  topics : Option (List String)
  topicsText : Option String
deriving Repr

/-- The topic list `/queue/replace` works from: prefer the newline-delimited
`topicsText` (when non-blank after trimming) over the `topics` array (whose entries
are trimmed, blanks dropped). -/
def replaceTopics (body : ReplaceBody) : List String :=
  let fromText := trimStr (body.topicsText.getD "")
  let fromArray := ((body.topics.getD []).map trimStr).filter fun t => t != ""
  if fromText != "" then parseTopicsText fromText else fromArray

/-- `/queue/replace`: require at least one topic; rebuild via
`buildQueueFromTopics`. -/
def queueReplace (now : Int) (body : ReplaceBody) (baseQueue : List QueueItem) :
    Except QueueError (List QueueItem) :=
  let topics := replaceTopics body
  if topics.length < 1 then .error .emptyTopics
  else .ok (buildQueueFromTopics now topics baseQueue)

/-- `/queue/swap`: require at least 2 items and both 1-based positions in range;
exchange the two items wholesale and re-number `rank`/`weekIndex` by position. -/
def queueSwap (queue : List QueueItem) (fromPos toPos : Int) :
    Except QueueError (List QueueItem) :=
  let maxPosition : Int := queue.length
  if maxPosition < 2 then .error .needAtLeastTwoItems
  else if fromPos < 1 ∨ fromPos > maxPosition ∨ toPos < 1 ∨ toPos > maxPosition then
    .error .positionOutOfRange
  else
    let a := (fromPos - 1).toNat
    let b := (toPos - 1).toNat
    let qa := queue.getD a default
    let qb := queue.getD b default
    let swapped := (queue.set a qb).set b qa
    .ok (swapped.mapIdx fun index item =>
      { item with rank := index + 1, weekIndex := index + 1 })

/-- `/queue/remove`: require the 1-based index in range; keep the other items' topics
in order and rebuild via `buildQueueFromTopics` against the old queue. -/
def queueRemove (now : Int) (queue : List QueueItem) (index : Int) :
    Except QueueError (List QueueItem) :=
  let maxPosition : Int := queue.length
  if index < 1 ∨ index > maxPosition then .error .positionOutOfRange
  else
    let topics := (queue.enum.filter fun p => ((p.1 : Int) != index - 1)).map fun p => p.2.topic
    .ok (buildQueueFromTopics now topics queue)

/-! ### Generic facts about the queue builders -/

theorem length_withWeeklySlots (now : Int) (topics : List PlanItem) :
    (withWeeklySlots now topics).length = topics.length := by
  unfold withWeeklySlots
  simp

theorem withWeeklySlots_getD (now : Int) (topics : List PlanItem) (i : Nat)
    (h : i < topics.length) :
    (withWeeklySlots now topics).getD i default =
      { toPlanItem := { topics.getD i default with rank := i + 1 }
        weekIndex := i + 1
        weekStart := startOfUpcomingWeekMonday now + (i : Int) * 7
        weekEnd := startOfUpcomingWeekMonday now + (i : Int) * 7 + 6 } := by
  unfold withWeeklySlots
  simp [List.getD_eq_getElem?_getD, List.getElem?_mapIdx, List.getElem?_eq_getElem, h]

/-- The rank-contiguity invariant of the specification: `queue[i].rank == i+1` and
`queue[i].weekIndex == queue[i].rank` for every index. -/
def rankContiguous (queue : List QueueItem) : Prop :=
  ∀ i, i < queue.length →
    (queue.getD i default).rank = i + 1 ∧
      (queue.getD i default).weekIndex = (queue.getD i default).rank

theorem rankContiguous_withWeeklySlots (now : Int) (topics : List PlanItem) :
    rankContiguous (withWeeklySlots now topics) := by
  intro i h
  rw [length_withWeeklySlots] at h
  rw [withWeeklySlots_getD now topics i h]
  exact ⟨rfl, rfl⟩

theorem rankContiguous_buildQueueFromTopics (now : Int) (topics : List String)
    (baseQueue : List QueueItem) :
    rankContiguous (buildQueueFromTopics now topics baseQueue) := by
  unfold buildQueueFromTopics
  exact rankContiguous_withWeeklySlots now _

theorem rankContiguous_renumber (l : List QueueItem) :
    rankContiguous (l.mapIdx fun index item =>
      { item with rank := index + 1, weekIndex := index + 1 }) := by
  intro i h
  simp only [List.length_mapIdx] at h
  simp [List.getD_eq_getElem?_getD, List.getElem?_mapIdx, List.getElem?_eq_getElem, h]

/-! ### C3 -/

/-- C3.  After every successful replace, swap or remove, the persisted queue has
contiguous ranks 1..N (`queue[i].rank = i+1`) and `weekIndex = rank` at every
index. -/
theorem queue_mutations_rank_contiguous (now : Int) (queue baseQueue : List QueueItem)
    (body : ReplaceBody) (fromPos toPos index : Int) :
    (∀ q, queueReplace now body baseQueue = .ok q → rankContiguous q) ∧
      (∀ q, queueSwap queue fromPos toPos = .ok q → rankContiguous q) ∧
      (∀ q, queueRemove now queue index = .ok q → rankContiguous q) := by
  refine ⟨?_, ?_, ?_⟩
  · intro q hq
    unfold queueReplace at hq
    dsimp only at hq
    split at hq
    · exact absurd hq (by simp)
    · simp only [Except.ok.injEq] at hq
      exact hq ▸ rankContiguous_buildQueueFromTopics now _ baseQueue
  · intro q hq
    unfold queueSwap at hq
    dsimp only at hq
    split at hq
    · exact absurd hq (by simp)
    split at hq
    · exact absurd hq (by simp)
    · simp only [Except.ok.injEq] at hq
      exact hq ▸ rankContiguous_renumber _
  · intro q hq
    unfold queueRemove at hq
    dsimp only at hq
    split at hq
    · exact absurd hq (by simp)
    · simp only [Except.ok.injEq] at hq
      exact hq ▸ rankContiguous_buildQueueFromTopics now _ queue

/-- Sample queue items used in the queue witnesses and counterexamples. -/
def qItem1 : QueueItem :=
  { rank := 1, topic := "Тема 1", objective := .engagement, tone := .casual,
    cta := "cta 1", sourcePostIds := ["s1"], weekIndex := 1, weekStart := 11,
    weekEnd := 17 }

def qItem2 : QueueItem :=
  { rank := 2, topic := "Тема 2", objective := .storytelling, tone := .inspiring,
    cta := "cta 2", sourcePostIds := ["s2"], weekIndex := 2, weekStart := 18,
    weekEnd := 24 }

/-- The queue persisted by swap(1, 2) on `[qItem1, qItem2]`. -/
def swapDemo : List QueueItem :=
  [{ qItem2 with rank := 1, weekIndex := 1 }, { qItem1 with rank := 2, weekIndex := 2 }]

/-- C3, witness at a concrete input. -/
theorem queue_mutations_rank_contiguous_witness : rankContiguous swapDemo :=
  (queue_mutations_rank_contiguous 0 [qItem1, qItem2] [] ⟨none, none⟩ 1 2 1).2.1
    swapDemo (by rfl)

/-! ### C4 -/

/-- Modelled from the spec: the "Monday on or after" day `d` — the smallest day
`m ≥ d` whose day of week is Monday (day 4 = 1970-01-05 was a Monday). -/
def mondayOnOrAfter (d : Int) : Int :=
  d + (4 - d) % 7

def planItemA : PlanItem :=
  { rank := 1, topic := "Тема A", objective := .engagement, tone := .casual,
    cta := "cta", sourcePostIds := [] }

def planItemB : PlanItem :=
  { rank := 2, topic := "Тема B", objective := .promotion, tone := .adventure,
    cta := "cta", sourcePostIds := [] }

/-- C4, counterexample.  When the generation moment falls on a Monday the first
weekly slot does not start at the Monday on or after that moment: day 4
(1970-01-05) is a Monday and is its own "Monday on or after", yet
`withWeeklySlots` anchors the first `weekStart` to day 11, the *following*
Monday. -/
theorem weekly_slots_not_monday_on_or_after :
    getUTCDay 4 = 1 ∧
      mondayOnOrAfter 4 = 4 ∧
      ((withWeeklySlots 4 [planItemA]).getD 0 default).weekStart = 11 ∧
      (11 : Int) ≠ 4 := by
  refine ⟨by decide, by decide, by decide, by decide⟩

/-- C4, amended.  For every queue built by `withWeeklySlots` (generation, replace and
remove all go through it): `weekEnd = weekStart + 6` at every index, consecutive
items' `weekStart`s differ by exactly 7 days, and the first item's `weekStart` is
`startOfUpcomingWeekMonday now` — the Monday *strictly after* the generation day
(a Monday, later than `now`, at most 7 days later; when `now` itself is a Monday
this is the following Monday, not `now`). -/
theorem withWeeklySlots_weekly_windows (now : Int) (topics : List PlanItem) :
    (∀ i, i < (withWeeklySlots now topics).length →
        ((withWeeklySlots now topics).getD i default).weekEnd
          = ((withWeeklySlots now topics).getD i default).weekStart + 6) ∧
      (∀ i, i + 1 < (withWeeklySlots now topics).length →
        ((withWeeklySlots now topics).getD (i + 1) default).weekStart
          = ((withWeeklySlots now topics).getD i default).weekStart + 7) ∧
      (0 < (withWeeklySlots now topics).length →
        ((withWeeklySlots now topics).getD 0 default).weekStart
          = startOfUpcomingWeekMonday now) ∧
      getUTCDay (startOfUpcomingWeekMonday now) = 1 ∧
      now < startOfUpcomingWeekMonday now ∧
      startOfUpcomingWeekMonday now ≤ now + 7 := by
  refine ⟨?_, ?_, ?_, ?_, ?_, ?_⟩
  · intro i h
    rw [length_withWeeklySlots] at h
    rw [withWeeklySlots_getD now topics i h]
  · intro i h
    rw [length_withWeeklySlots] at h
    rw [withWeeklySlots_getD now topics (i + 1) h,
      withWeeklySlots_getD now topics i (Nat.lt_of_succ_lt h)]
    push_cast
    ring
  · intro h
    rw [length_withWeeklySlots] at h
    rw [withWeeklySlots_getD now topics 0 h]
    simp
  · unfold startOfUpcomingWeekMonday getUTCDay
    split <;> omega
  · unfold startOfUpcomingWeekMonday getUTCDay
    split <;> omega
  · unfold startOfUpcomingWeekMonday getUTCDay
    split <;> omega

/-- C4, witness for the amended theorem at a concrete input. -/
theorem withWeeklySlots_weekly_windows_witness :
    ((withWeeklySlots 4 [planItemA, planItemB]).getD 1 default).weekStart
      = ((withWeeklySlots 4 [planItemA, planItemB]).getD 0 default).weekStart + 7 :=
  (withWeeklySlots_weekly_windows 4 [planItemA, planItemB]).2.1 0 (by decide)

/-! ### C5 -/

/-- C5, counterexample.  Swap re-derives `rank`/`weekIndex` but does *not* keep the
stored weekly windows ordered by position: swapping the two items of a queue whose
windows are `[11,17]` and `[18,24]` persists a queue whose first item carries window
`[18,24]` and whose second carries `[11,17]` — the windows travelled with the
exchanged content, so they are neither contiguous in position order
(`18 + 7 ≠ 11`) nor ascending. -/
theorem queue_swap_windows_travel :
    queueSwap [qItem1, qItem2] 1 2 = .ok swapDemo ∧
      (swapDemo.getD 0 default).weekStart = 18 ∧
      (swapDemo.getD 1 default).weekStart = 11 ∧
      ¬ (swapDemo.getD 0 default).weekStart + 7 = (swapDemo.getD 1 default).weekStart ∧
      ¬ (swapDemo.getD 0 default).weekStart ≤ (swapDemo.getD 1 default).weekStart := by
  refine ⟨rfl, by decide, by decide, by decide, by decide⟩

/-- C5, amended.  `swap(from, to)` uses 1-based positions, fails unless the queue has
at least 2 items and both positions are in range; on success it exchanges the two
addressed items wholesale — their `weekStart`/`weekEnd` travel with the exchanged
content instead of being re-derived by position — leaves every other item unchanged,
and re-numbers `rank` and `weekIndex` (only) by position for the whole list. -/
theorem queue_swap_semantics :
    (∀ (queue : List QueueItem) (fromPos toPos : Int),
        queue.length < 2 →
        queueSwap queue fromPos toPos = .error .needAtLeastTwoItems) ∧
      (∀ (queue : List QueueItem) (fromPos toPos : Int),
        2 ≤ queue.length →
        (fromPos < 1 ∨ (queue.length : Int) < fromPos
          ∨ toPos < 1 ∨ (queue.length : Int) < toPos) →
        queueSwap queue fromPos toPos = .error .positionOutOfRange) ∧
      (∀ (queue : List QueueItem) (a b : Nat),
        2 ≤ queue.length → a < queue.length → b < queue.length →
        ∃ q, queueSwap queue ((a : Int) + 1) ((b : Int) + 1) = .ok q ∧
          q.length = queue.length ∧
          ∀ i, i < queue.length →
            q.getD i default =
              { queue.getD (if i = a then b else if i = b then a else i) default with
                  rank := i + 1, weekIndex := i + 1 }) := by
  refine ⟨?_, ?_, ?_⟩
  · intro queue fromPos toPos h
    unfold queueSwap
    dsimp only
    rw [if_pos (by exact_mod_cast h : (queue.length : Int) < 2)]
  · intro queue fromPos toPos h2 hrange
    unfold queueSwap
    dsimp only
    rw [if_neg (by omega), if_pos (by omega)]
  · intro queue a b h2 ha hb
    refine ⟨((queue.set a (queue.getD b default)).set b
        (queue.getD a default)).mapIdx fun index item =>
          { item with rank := index + 1, weekIndex := index + 1 }, ?_, ?_, ?_⟩
    · unfold queueSwap
      dsimp only
      rw [if_neg (by omega), if_neg (by omega)]
      simp only [add_sub_cancel_right, Int.toNat_natCast]
    · simp
    · intro i hi
      have hlen2 : i < ((queue.set a (queue.getD b default)).set b
          (queue.getD a default)).length := by
        simpa using hi
      rw [List.getD_eq_getElem?_getD, List.getElem?_mapIdx,
        List.getElem?_eq_getElem hlen2]
      rw [List.getElem_set, List.getElem_set]
      by_cases hib : b = i
      · subst hib
        by_cases hba : b = a
        · subst hba
          simp
        · simp [hba]
      · by_cases hia : a = i
        · subst hia
          simp [hib]
        · simp [hib, hia, Ne.symm hib, Ne.symm hia, List.getElem?_eq_getElem hi]

/-- C5, witness for the amended theorem at a concrete input: the success case on the
two-item queue. -/
theorem queue_swap_semantics_witness :
    ∃ q, queueSwap [qItem1, qItem2] ((0 : Nat) + 1 : Int) ((1 : Nat) + 1 : Int)
        = .ok q ∧
      q.length = ([qItem1, qItem2] : List QueueItem).length ∧
      ∀ i, i < ([qItem1, qItem2] : List QueueItem).length →
        q.getD i default =
          { ([qItem1, qItem2] : List QueueItem).getD
              (if i = 0 then 1 else if i = 1 then 0 else i) default with
              rank := i + 1, weekIndex := i + 1 } :=
  queue_swap_semantics.2.2 [qItem1, qItem2] 0 1 (by decide) (by decide) (by decide)

/-! ### C9 -/

theorem length_buildQueueFromTopics (now : Int) (topics : List String)
    (baseQueue : List QueueItem) :
    (buildQueueFromTopics now topics baseQueue).length = topics.length := by
  unfold buildQueueFromTopics
  rw [length_withWeeklySlots]
  simp

theorem buildQueueFromTopics_getD (now : Int) (topics : List String)
    (baseQueue : List QueueItem) (i : Nat) (h : i < topics.length) :
    (buildQueueFromTopics now topics baseQueue).getD i default =
      { rank := i + 1
        topic := topics.getD i ""
        objective := (((baseQueue.get? i).orElse fun _ => baseQueue.head?).map
          fun s => s.objective).getD Objective.engagement
        tone := (((baseQueue.get? i).orElse fun _ => baseQueue.head?).map
          fun s => s.tone).getD Tone.casual
        cta := (((baseQueue.get? i).orElse fun _ => baseQueue.head?).map
          fun s => s.cta).getD defaultCta
        sourcePostIds := (((baseQueue.get? i).orElse fun _ => baseQueue.head?).map
          fun s => s.sourcePostIds).getD []
        weekIndex := i + 1
        weekStart := startOfUpcomingWeekMonday now + (i : Int) * 7
        weekEnd := startOfUpcomingWeekMonday now + (i : Int) * 7 + 6 } := by
  unfold buildQueueFromTopics
  rw [withWeeklySlots_getD _ _ i (by simpa using h)]
  simp [List.getD_eq_getElem?_getD, List.getElem?_mapIdx, List.getElem?_eq_getElem h]

/-- C9.  `/queue/replace` accepts any list of at least one topic (drawn from the
`topics` array or from newline-delimited `topicsText` with optional leading ordinal
prefixes — the final conjunct shows a text with prefixes parsing to its bare topics);
the persisted queue has exactly one item per topic, carrying the given topics in
order with ranks (and week indexes) 1..N, each item inheriting
`objective`/`tone`/`cta`/`sourcePostIds` from the index-aligned item of the previous
queue (falling back to the first previous item, then to the defaults), with weekly
slots re-derived from the current moment. -/
theorem queue_replace_semantics (now : Int) (body : ReplaceBody)
    (baseQueue : List QueueItem) (htop : 1 ≤ (replaceTopics body).length) :
    (∃ q, queueReplace now body baseQueue = .ok q ∧
      q.length = (replaceTopics body).length ∧
      ∀ i, i < (replaceTopics body).length →
        (q.getD i default).topic = (replaceTopics body).getD i "" ∧
        (q.getD i default).rank = i + 1 ∧
        (q.getD i default).weekIndex = i + 1 ∧
        (q.getD i default).objective = (((baseQueue.get? i).orElse
          fun _ => baseQueue.head?).map fun s => s.objective).getD Objective.engagement ∧
        (q.getD i default).tone = (((baseQueue.get? i).orElse
          fun _ => baseQueue.head?).map fun s => s.tone).getD Tone.casual ∧
        (q.getD i default).cta = (((baseQueue.get? i).orElse
          fun _ => baseQueue.head?).map fun s => s.cta).getD defaultCta ∧
        (q.getD i default).sourcePostIds = (((baseQueue.get? i).orElse
          fun _ => baseQueue.head?).map fun s => s.sourcePostIds).getD [] ∧
        (q.getD i default).weekStart = startOfUpcomingWeekMonday now + (i : Int) * 7 ∧
        (q.getD i default).weekEnd
          = startOfUpcomingWeekMonday now + (i : Int) * 7 + 6) ∧
      parseTopicsText "1. Тема A\n2. Тема B\nТема C"
        = ["Тема A", "Тема B", "Тема C"] := by
  refine ⟨⟨buildQueueFromTopics now (replaceTopics body) baseQueue, ?_, ?_, ?_⟩, ?_⟩
  · unfold queueReplace
    dsimp only
    rw [if_neg (by omega)]
  · exact length_buildQueueFromTopics now (replaceTopics body) baseQueue
  · intro i hi
    rw [buildQueueFromTopics_getD now (replaceTopics body) baseQueue i hi]
    exact ⟨rfl, rfl, rfl, rfl, rfl, rfl, rfl, rfl, rfl⟩
  · decide

/-- C9, witness at a concrete input: replacing a 2-item queue with 3 topics. -/
theorem queue_replace_semantics_witness :
    (∃ q, queueReplace 4 ⟨some ["Тема X", "Тема Y", "Тема Z"], none⟩
        [qItem1, qItem2] = .ok q ∧
      q.length = (replaceTopics ⟨some ["Тема X", "Тема Y", "Тема Z"], none⟩).length ∧
      ∀ i, i < (replaceTopics ⟨some ["Тема X", "Тема Y", "Тема Z"], none⟩).length →
        (q.getD i default).topic
          = (replaceTopics ⟨some ["Тема X", "Тема Y", "Тема Z"], none⟩).getD i "" ∧
        (q.getD i default).rank = i + 1 ∧
        (q.getD i default).weekIndex = i + 1 ∧
        (q.getD i default).objective = ((([qItem1, qItem2].get? i).orElse
          fun _ => [qItem1, qItem2].head?).map fun s => s.objective).getD
            Objective.engagement ∧
        (q.getD i default).tone = ((([qItem1, qItem2].get? i).orElse
          fun _ => [qItem1, qItem2].head?).map fun s => s.tone).getD Tone.casual ∧
        (q.getD i default).cta = ((([qItem1, qItem2].get? i).orElse
          fun _ => [qItem1, qItem2].head?).map fun s => s.cta).getD defaultCta ∧
        (q.getD i default).sourcePostIds = ((([qItem1, qItem2].get? i).orElse
          fun _ => [qItem1, qItem2].head?).map fun s => s.sourcePostIds).getD [] ∧
        (q.getD i default).weekStart = startOfUpcomingWeekMonday 4 + (i : Int) * 7 ∧
        (q.getD i default).weekEnd
          = startOfUpcomingWeekMonday 4 + (i : Int) * 7 + 6) ∧
      parseTopicsText "1. Тема A\n2. Тема B\nТема C"
        = ["Тема A", "Тема B", "Тема C"] :=
  queue_replace_semantics 4 ⟨some ["Тема X", "Тема Y", "Тема Z"], none⟩
    [qItem1, qItem2] (by decide)

/-! ### Topic normalization and strict avoidance (`rag.ts`: `normalizeTopic`,
`applyTopicAvoidanceStrict`; `generateAndSaveQueue` of the API server) -/

/-- `TOPIC_SEED_COUNT` from `rag.ts`. -/
def TOPIC_SEED_COUNT : Nat := 10

/-- JS `replace(/\s+/g, " ")` on the character level: replace every run of
whitespace by a single space (`prevWs` records whether the previous character was
whitespace, i.e. whether the current run has already emitted its space). -/
def collapseWs (prevWs : Bool) : List Char → List Char
  | [] => []
  | c :: rest =>
    if c.isWhitespace then
      (if prevWs then [] else [' ']) ++ collapseWs true rest
    else c :: collapseWs false rest

/-- `normalizeTopic` from `rag.ts`: `text.toLowerCase().replace(/\s+/g, " ").trim()`.
(`Char.toLower` models `toLowerCase` for the alphabets the claims exercise.) -/
def normalizeTopic (s : String) : String :=
  String.mk (trimChars (collapseWs false (s.data.map Char.toLower)))

/-- The `filtered` of `applyTopicAvoidanceStrict`: keep plan items whose normalized
topic is not in the normalized avoid set. -/
def avoidFiltered (plan : List PlanItem) (avoid : List String) : List PlanItem :=
  plan.filter fun item => !((avoid.map normalizeTopic).contains (normalizeTopic item.topic))

/-- `applyTopicAvoidanceStrict` from `rag.ts`: a no-op when `avoidTopics` is absent
or empty (`!avoidTopics || avoidTopics.length === 0`); otherwise filter the plan by
normalized topic, fail when fewer than `TOPIC_SEED_COUNT` items survive, else keep
the first `TOPIC_SEED_COUNT` and re-rank them 1..K. -/
def applyTopicAvoidanceStrict (plan : List PlanItem) (avoidTopics : Option (List String)) :
    Except String (List PlanItem) :=
  let avoid := avoidTopics.getD []
  if avoid.length = 0 then .ok plan
  else
    let filtered := avoidFiltered plan avoid
    if filtered.length < TOPIC_SEED_COUNT then
      .error "insufficient_unique_topics_after_avoidance"
    else
      .ok ((filtered.take TOPIC_SEED_COUNT).mapIdx fun index item =>
        { item with rank := index + 1 })

/-- `generateAndSaveQueue` from the API server, modelled from the avoidance step on:
the generative provider's plan (already validated by `parsePlanResponse` to exactly
`TOPIC_SEED_COUNT` items) is passed to `applyTopicAvoidanceStrict` with the prior
persisted queue's topics as the avoid list, and the surviving plan receives weekly
slots; provider and embedding calls are external to this model. -/
def generateAndSaveQueue (now : Int) (generatedPlan : List PlanItem)
    (priorQueue : Option (List QueueItem)) : Except String (List QueueItem) :=
  let avoidTopics := (priorQueue.map fun q => q.map fun item => item.topic).getD []
  (applyTopicAvoidanceStrict generatedPlan (some avoidTopics)).map (withWeeklySlots now)

theorem applyTopicAvoidanceStrict_ok (plan : List PlanItem) (avoid : List String)
    (hlen : plan.length = TOPIC_SEED_COUNT) (res : List PlanItem)
    (h : applyTopicAvoidanceStrict plan (some avoid) = .ok res) :
    res.length = TOPIC_SEED_COUNT ∧
      ∀ item ∈ res, ∀ t ∈ avoid, normalizeTopic item.topic ≠ normalizeTopic t := by
  unfold applyTopicAvoidanceStrict at h
  simp only [Option.getD_some] at h
  split at h
  next h0 =>
    simp only [Except.ok.injEq] at h
    subst h
    have havoid : avoid = [] := List.length_eq_zero.mp h0
    subst havoid
    exact ⟨hlen, fun item _ t ht => absurd ht (List.not_mem_nil t)⟩
  next h0 =>
    split at h
    · exact absurd h (by simp)
    next h1 =>
      simp only [Except.ok.injEq] at h
      subst h
      refine ⟨?_, ?_⟩
      · have hfle : (avoidFiltered plan avoid).length ≤ plan.length :=
          List.length_filter_le _ _
        simp only [List.length_mapIdx, List.length_take]
        unfold TOPIC_SEED_COUNT at *
        omega
      · intro item hitem t ht
        rcases List.mem_mapIdx.mp hitem with ⟨i, hi, hf⟩
        have hx : ((avoidFiltered plan avoid).take TOPIC_SEED_COUNT)[i] ∈
            avoidFiltered plan avoid :=
          List.mem_of_mem_take (List.getElem_mem _)
        have hpred := List.of_mem_filter hx
        have hnotin :
            normalizeTopic (((avoidFiltered plan avoid).take TOPIC_SEED_COUNT)[i]).topic
              ∉ avoid.map normalizeTopic := by
          simpa using hpred
        have htopic :
            item.topic
              = (((avoidFiltered plan avoid).take TOPIC_SEED_COUNT)[i]).topic := by
          rw [← hf]
        intro hcontra
        refine hnotin ?_
        rw [← htopic, hcontra]
        exact List.mem_map_of_mem normalizeTopic ht

theorem applyTopicAvoidanceStrict_error (plan : List PlanItem)
    (avoidTopics : Option (List String)) (e : String)
    (h : applyTopicAvoidanceStrict plan avoidTopics = .error e) :
    e = "insufficient_unique_topics_after_avoidance" := by
  unfold applyTopicAvoidanceStrict at h
  dsimp only at h
  split at h
  · exact absurd h (by simp)
  · split at h
    · simp only [Except.error.injEq] at h
      exact h.symm
    · exact absurd h (by simp)

theorem mem_withWeeklySlots_topic (now : Int) (topics : List PlanItem) (item : QueueItem)
    (h : item ∈ withWeeklySlots now topics) :
    ∃ p ∈ topics, item.topic = p.topic := by
  unfold withWeeklySlots at h
  dsimp only at h
  rcases List.mem_mapIdx.mp h with ⟨i, hi, heq⟩
  exact ⟨topics[i], List.getElem_mem _, by rw [← heq]⟩

/-! ### C6 -/

/-- C6.  Regeneration with an avoidance set holding all topics of the prior persisted
queue either yields a queue of exactly K = 10 items none of whose topics is
case/whitespace-normalization-equal to any prior topic, or fails with
`insufficient_unique_topics_after_avoidance`; the plan is never silently shrunk
below 10. -/
theorem generate_avoidance_strict (now : Int) (generatedPlan : List PlanItem)
    (priorQueue : List QueueItem) (hlen : generatedPlan.length = TOPIC_SEED_COUNT) :
    (∀ q, generateAndSaveQueue now generatedPlan (some priorQueue) = .ok q →
      q.length = TOPIC_SEED_COUNT ∧
        ∀ item ∈ q, ∀ prior ∈ priorQueue,
          normalizeTopic item.topic ≠ normalizeTopic prior.topic) ∧
      (∀ e, generateAndSaveQueue now generatedPlan (some priorQueue) = .error e →
        e = "insufficient_unique_topics_after_avoidance") := by
  constructor
  · intro q hq
    unfold generateAndSaveQueue at hq
    simp only [Option.map_some', Option.getD_some] at hq
    cases happ : applyTopicAvoidanceStrict generatedPlan
        (some (priorQueue.map fun item => item.topic)) with
    | error e =>
      rw [happ] at hq
      exact absurd hq (by simp [Except.map])
    | ok res =>
      rw [happ] at hq
      simp only [Except.map, Except.ok.injEq] at hq
      subst hq
      obtain ⟨hreslen, hres⟩ :=
        applyTopicAvoidanceStrict_ok generatedPlan _ hlen res happ
      refine ⟨by rw [length_withWeeklySlots]; exact hreslen, ?_⟩
      intro item hitem prior hprior
      rcases mem_withWeeklySlots_topic now res item hitem with ⟨p, hp, htopic⟩
      rw [htopic]
      exact hres p hp prior.topic (List.mem_map_of_mem _ hprior)
  · intro e he
    unfold generateAndSaveQueue at he
    simp only [Option.map_some', Option.getD_some] at he
    cases happ : applyTopicAvoidanceStrict generatedPlan
        (some (priorQueue.map fun item => item.topic)) with
    | ok res =>
      rw [happ] at he
      exact absurd he (by simp [Except.map])
    | error e2 =>
      rw [happ] at he
      simp only [Except.map, Except.error.injEq] at he
      subst he
      exact applyTopicAvoidanceStrict_error generatedPlan _ e2 happ

/-- A 10-item generated plan used by the C6 witness. -/
def plan10 : List PlanItem :=
  [{ planItemA with rank := 1, topic := "т1" }, { planItemA with rank := 2, topic := "т2" },
   { planItemA with rank := 3, topic := "т3" }, { planItemA with rank := 4, topic := "т4" },
   { planItemA with rank := 5, topic := "т5" }, { planItemA with rank := 6, topic := "т6" },
   { planItemA with rank := 7, topic := "т7" }, { planItemA with rank := 8, topic := "т8" },
   { planItemA with rank := 9, topic := "т9" }, { planItemA with rank := 10, topic := "т10" }]

/-- The queue the C6 witness regeneration persists. -/
def genDemo : List QueueItem := withWeeklySlots 4 plan10

/-- C6, witness at a concrete input: a regeneration whose 10 fresh topics all avoid
the prior queue's single topic. -/
theorem generate_avoidance_strict_witness :
    genDemo.length = TOPIC_SEED_COUNT ∧
      ∀ item ∈ genDemo, ∀ prior ∈ [qItem1],
        normalizeTopic item.topic ≠ normalizeTopic prior.topic :=
  (generate_avoidance_strict 4 plan10 [qItem1] (by decide)).1 genDemo (by rfl)

/-! ### Topic-seed validation (`rag.ts`: `parseTopicSeeds`,
`deriveTopicSeedsFromHistory`)

`parseTopicSeeds` first isolates the text between the first `[` and the last `]` of
the raw provider output and runs `JSON.parse` on it; that isolation/parse stage is
treated as an external parser here: its outcome is the model input, `none` standing
for "no bracket pair, invalid JSON, or a non-array value", and `some items` for the
parsed array with non-string elements mapped to `JsonEntry.nonString`. -/

inductive JsonEntry where
  | str (s : String)
  | nonString
deriving DecidableEq, Repr

/-- The accumulation loop of `parseTopicSeeds`: walk the array, skip non-strings,
trim, skip blanks, insert unseen values (a JS `Set` preserves insertion order), and
break once the set holds `TOPIC_SEED_COUNT` values. -/
def seedDedup : List JsonEntry → List String → List String
  | [], unique => unique
  | .nonString :: rest, unique => seedDedup rest unique
  | .str s :: rest, unique =>
    let normalized := trimStr s
    if normalized = "" then seedDedup rest unique
    else
      let unique2 := if normalized ∈ unique then unique else unique ++ [normalized]
      if TOPIC_SEED_COUNT ≤ unique2.length then unique2 else seedDedup rest unique2

/-- `parseTopicSeeds` from `rag.ts`, from the parsed payload on: `none` unless the
deduplicated values number exactly `TOPIC_SEED_COUNT`, else those values in
insertion order. -/
def parseTopicSeeds (payload : Option (List JsonEntry)) : Option (List String) :=
  payload.bind fun items =>
    let unique := seedDedup items []
    if unique.length = TOPIC_SEED_COUNT then some unique else none

/-- The seed-validation step of `deriveTopicSeedsFromHistory`: a failed parse raises
`invalid_topic_seeds`. -/
def deriveTopicSeeds (payload : Option (List JsonEntry)) : Except String (List String) :=
  (parseTopicSeeds payload).elim (.error "invalid_topic_seeds") Except.ok

/-- The trimmed non-blank string entries of the payload, in order (the values the
loop of `parseTopicSeeds` actually processes). -/
def trimmedEntries : List JsonEntry → List String
  | [] => []
  | .nonString :: rest => trimmedEntries rest
  | .str s :: rest =>
    if trimStr s = "" then trimmedEntries rest
    else trimStr s :: trimmedEntries rest

/-- First-appearance-order deduplication (what a JS `Set` accumulates), starting
from `acc`. -/
def dedupAppend (acc : List String) : List String → List String
  | [] => acc
  | s :: rest => dedupAppend (if s ∈ acc then acc else acc ++ [s]) rest

/-- The distinct trimmed entries of the payload, in first-appearance order. -/
def distinctTrimmedEntries (items : List JsonEntry) : List String :=
  dedupAppend [] (trimmedEntries items)

/-- As the claim words it: the number of distinct *case/whitespace-normalized*
entries of the payload. -/
def normalizedDedupCount (items : List JsonEntry) : Nat :=
  (dedupAppend [] ((trimmedEntries items).map normalizeTopic)).length

theorem dedupAppend_exists_suffix (l : List String) :
    ∀ acc, ∃ t, dedupAppend acc l = acc ++ t := by
  induction l with
  | nil => exact fun acc => ⟨[], by simp [dedupAppend]⟩
  | cons s rest ih =>
    intro acc
    by_cases hs : s ∈ acc
    · rcases ih acc with ⟨t, ht⟩
      exact ⟨t, by simpa [dedupAppend, hs] using ht⟩
    · rcases ih (acc ++ [s]) with ⟨t, ht⟩
      refine ⟨[s] ++ t, ?_⟩
      simp only [dedupAppend, if_neg hs]
      rw [ht, List.append_assoc]

theorem seedDedup_eq_take :
    ∀ (items : List JsonEntry) (acc : List String),
      acc.length < TOPIC_SEED_COUNT →
      seedDedup items acc = (dedupAppend acc (trimmedEntries items)).take TOPIC_SEED_COUNT := by
  intro items
  induction items with
  | nil =>
    intro acc hacc
    simp [seedDedup, trimmedEntries, dedupAppend,
      List.take_of_length_le (Nat.le_of_lt hacc)]
  | cons e rest ih =>
    intro acc hacc
    cases e with
    | nonString =>
      simpa [seedDedup, trimmedEntries] using ih acc hacc
    | str s =>
      by_cases hblank : trimStr s = ""
      · have := ih acc hacc
        simpa [seedDedup, trimmedEntries, hblank] using this
      · by_cases hmemb : trimStr s ∈ acc
        · have hnotfull : ¬ TOPIC_SEED_COUNT ≤ acc.length := Nat.not_le_of_lt hacc
          have := ih acc hacc
          simpa [seedDedup, trimmedEntries, hblank, hmemb, dedupAppend, hnotfull]
            using this
        · by_cases hfull : TOPIC_SEED_COUNT ≤ (acc ++ [trimStr s]).length
          · have hfull2 : TOPIC_SEED_COUNT ≤ acc.length + 1 := by simpa using hfull
            have hlen10 : (acc ++ [trimStr s]).length = TOPIC_SEED_COUNT := by
              simp only [List.length_append, List.length_singleton]
              unfold TOPIC_SEED_COUNT at *
              omega
            rcases dedupAppend_exists_suffix (trimmedEntries rest) (acc ++ [trimStr s])
              with ⟨t, ht⟩
            simp only [seedDedup, trimmedEntries, hblank, if_neg hblank, if_neg hmemb,
              if_pos hfull, dedupAppend]
            rw [ht, ← hlen10, List.take_left]
            simp [hmemb]
          · have hfull2 : ¬ TOPIC_SEED_COUNT ≤ acc.length + 1 := by
              simpa using hfull
            have := ih (acc ++ [trimStr s]) (by
              simp only [List.length_append, List.length_singleton]
              unfold TOPIC_SEED_COUNT at *
              omega)
            simpa [seedDedup, trimmedEntries, hblank, hmemb, hfull2, dedupAppend]
              using this

/-! ### C7 -/

/-- A provider payload of 12 distinct trimmed entries, two of which coincide after
case normalization. -/
def seedItems12 : List JsonEntry :=
  [.str "a", .str "A", .str "b", .str "c", .str "d", .str "e", .str "f", .str "g",
   .str "h", .str "i", .str "j", .str "k"]

/-- C7, counterexample.  The validator neither case/whitespace-normalizes before
deduplicating nor requires the deduplicated count to be exactly 10: on a payload of
12 distinct trimmed entries whose case-normalized dedup count is 11 ≠ 10, parsing
*succeeds*, returning the first 10 distinct trimmed entries ("a" and "A" both kept),
instead of raising `invalid_topic_seeds`. -/
theorem topic_seed_validator_not_normalized :
    normalizedDedupCount seedItems12 = 11 ∧
      ¬ (11 : Nat) = 10 ∧
      parseTopicSeeds (some seedItems12)
        = some ["a", "A", "b", "c", "d", "e", "f", "g", "h", "i"] ∧
      deriveTopicSeeds (some seedItems12)
        = .ok ["a", "A", "b", "c", "d", "e", "f", "g", "h", "i"] := by
  refine ⟨by decide, by decide, by decide, by rfl⟩

/-- C7, amended.  The validator trims each string entry (case preserved, inner
whitespace untouched), skips non-strings and blanks, deduplicates the trimmed
entries in first-appearance order stopping after 10 distinct values, and succeeds
precisely when at least 10 distinct trimmed entries exist — returning the first 10
— otherwise (too few distinct entries, or a missing/invalid/non-array payload) the
generation raises `invalid_topic_seeds`. -/
theorem parseTopicSeeds_characterization (items : List JsonEntry) :
    parseTopicSeeds (some items)
        = (if TOPIC_SEED_COUNT ≤ (distinctTrimmedEntries items).length
            then some ((distinctTrimmedEntries items).take TOPIC_SEED_COUNT)
            else none) ∧
      deriveTopicSeeds (some items)
        = (if TOPIC_SEED_COUNT ≤ (distinctTrimmedEntries items).length
            then .ok ((distinctTrimmedEntries items).take TOPIC_SEED_COUNT)
            else .error "invalid_topic_seeds") ∧
      deriveTopicSeeds none = .error "invalid_topic_seeds" := by
  have hkey : seedDedup items []
      = (distinctTrimmedEntries items).take TOPIC_SEED_COUNT :=
    seedDedup_eq_take items [] (by decide)
  have hparse : parseTopicSeeds (some items)
      = (if TOPIC_SEED_COUNT ≤ (distinctTrimmedEntries items).length
          then some ((distinctTrimmedEntries items).take TOPIC_SEED_COUNT)
          else none) := by
    unfold parseTopicSeeds
    rw [Option.some_bind]
    dsimp only
    rw [hkey]
    by_cases hge : TOPIC_SEED_COUNT ≤ (distinctTrimmedEntries items).length
    · rw [if_pos hge, if_pos]
      simp only [List.length_take]
      omega
    · rw [if_neg hge, if_neg]
      simp only [List.length_take]
      unfold TOPIC_SEED_COUNT at *
      omega
  refine ⟨hparse, ?_, rfl⟩
  unfold deriveTopicSeeds
  rw [hparse]
  by_cases hge : TOPIC_SEED_COUNT ≤ (distinctTrimmedEntries items).length
  · rw [if_pos hge, if_pos hge]
    rfl
  · rw [if_neg hge, if_neg hge]
    rfl

/-! ### Seed-candidate scoring (`rag.ts`: `computeRecencyScore`,
`computeEngagementScore`, `pickSeedCandidates`).  `lg` stands for `Math.log1p`;
`now` is `Date.now()` in milliseconds.  The decimal weights 0.55/0.45 are the exact
field values 55/100 and 45/100. -/

/-- `MAX_RETRIEVAL_POSTS` from `rag.ts`. -/
def MAX_RETRIEVAL_POSTS : Nat := 1200

/-- `MAX_SEED_SOURCE_POSTS` from `rag.ts`. -/
def MAX_SEED_SOURCE_POSTS : Nat := 120

/-- `post.metrics?.reactions ?? 0`. -/
def postReactions (p : IndexedPost) : Int :=
  p.reactions.getD 0

/-- `candidatePool.reduce((max, post) => Math.max(max, post.metrics?.reactions ?? 0), 0)`. -/
def maxReactions (pool : List IndexedPost) : Int :=
  pool.foldl (fun m post => max m (postReactions post)) 0

section SeedScoring

variable {α : Type} [LinearOrderedField α]

/-- `computeRecencyScore` from `rag.ts`: linear decay of the age in days over a
730-day window, 0 for unparsable dates. -/
def computeRecencyScore (now : Int) (publishedAtMs : Option Int) : α :=
  match publishedAtMs with
  | none => 0
  | some ts => max 0 (1 - (((now - ts : Int) : α) / (1000 * 60 * 60 * 24)) / 730)

/-- `computeEngagementScore` from `rag.ts`: 0 when `maxLogReactions ≤ 0`, else
`log1p(max(0, reactions)) / maxLogReactions`. -/
def computeEngagementScore (lg : α → α) (post : IndexedPost) (maxLogReactions : α) : α :=
  if maxLogReactions ≤ 0 then 0
  else lg ((max 0 (postReactions post) : Int) : α) / maxLogReactions

/-- The per-post blend of `pickSeedCandidates`:
`recency * 0.55 + engagement * 0.45`. -/
def seedScore (lg : α → α) (now : Int) (maxLogReactions : α) (post : IndexedPost) : α :=
  computeRecencyScore now post.publishedAtMs * (55 / 100 : α)
    + computeEngagementScore lg post maxLogReactions * (45 / 100 : α)

/-- `pickSeedCandidates` from `rag.ts`: cap the pool at the first
`MAX_RETRIEVAL_POSTS` posts, score each pool post, sort by score descending
(stable) and keep the first `MAX_SEED_SOURCE_POSTS` posts. -/
def pickSeedCandidates (lg : α → α) (now : Int) (posts : List IndexedPost) :
    List IndexedPost :=
  let candidatePool := posts.take (min posts.length MAX_RETRIEVAL_POSTS)
  let maxLogReactions := lg ((maxReactions candidatePool : Int) : α)
  ((List.insertionSort (fun a b => b.2 ≤ a.2)
      (candidatePool.map fun post => (post, seedScore lg now maxLogReactions post))).take
    MAX_SEED_SOURCE_POSTS).map Prod.fst

/-- The recency score as the specification words it:
`max(0, 1 - ageDays / 730)`, unparsable dates scoring 0. -/
def specRecency (now : Int) (post : IndexedPost) : α :=
  match post.publishedAtMs with
  | none => 0
  | some ts => max 0 (1 - (((now - ts : Int) : α) / (1000 * 60 * 60 * 24)) / 730)

/-- The engagement score as the specification words it:
`log1p(reactions) / log1p(maxReactionsInCandidatePool)`, 0 when the pool's max
reactions is 0. -/
def specEngagement (lg : α → α) (maxR : Int) (post : IndexedPost) : α :=
  if maxR = 0 then 0 else lg ((postReactions post : Int) : α) / lg ((maxR : Int) : α)

/-- The blended score as the specification words it:
`score = 0.55 * recency + 0.45 * engagement`. -/
def specScore (lg : α → α) (now : Int) (maxR : Int) (post : IndexedPost) : α :=
  (55 / 100 : α) * specRecency now post + (45 / 100 : α) * specEngagement lg maxR post

/-- Seed-candidate selection as the specification words it: the candidate pool is
the first 1200 posts in corpus order, every pool post gets the blended score, and
the 120 highest-scoring posts (stable descending order) are kept. -/
def pickSeedCandidatesSpec (lg : α → α) (now : Int) (posts : List IndexedPost) :
    List IndexedPost :=
  ((List.insertionSort (fun a b => b.2 ≤ a.2)
      ((posts.take 1200).map fun post =>
        (post, specScore lg now (maxReactions (posts.take 1200)) post))).take 120).map
    Prod.fst

end SeedScoring

theorem le_foldl_max (pool : List IndexedPost) :
    ∀ init : Int, init ≤ pool.foldl (fun m post => max m (postReactions post)) init := by
  induction pool with
  | nil => intro init; simp
  | cons p rest ih =>
    intro init
    refine le_trans (le_max_left init (postReactions p)) ?_
    simpa using ih (max init (postReactions p))

theorem maxReactions_nonneg (pool : List IndexedPost) : 0 ≤ maxReactions pool :=
  le_foldl_max pool 0

/-! ### C10 -/

/-- C10.  Provided `log1p` is modelled by any function `lg` that is positive on
positive arguments and nonpositive at 0 (as `Math.log1p` is), and reactions counts
are nonnegative, the implemented seed-candidate selection coincides with the
specification's description: pool = first 1200 posts in corpus order, blended score
`0.55 * max(0, 1 - ageDays/730) + 0.45 * log1p(reactions)/log1p(maxPoolReactions)`
(recency 0 for unparsable dates, engagement 0 when the pool's max reactions is 0),
and the 120 highest-scoring posts kept. -/
theorem pickSeedCandidates_matches_spec {α : Type} [LinearOrderedField α]
    (lg : α → α) (now : Int) (posts : List IndexedPost)
    (hlg0 : lg 0 ≤ 0)
    (hlgpos : ∀ x : α, 0 < x → 0 < lg x)
    (hreact : ∀ p ∈ posts, 0 ≤ postReactions p) :
    pickSeedCandidates lg now posts = pickSeedCandidatesSpec lg now posts := by
  have hpool : posts.take (min posts.length MAX_RETRIEVAL_POSTS) = posts.take 1200 := by
    unfold MAX_RETRIEVAL_POSTS
    rcases le_total posts.length 1200 with h | h
    · rw [min_eq_left h, List.take_length, List.take_of_length_le h]
    · rw [min_eq_right h]
  have hscored :
      (posts.take 1200).map (fun post =>
          (post, seedScore lg now (lg ((maxReactions (posts.take 1200) : Int) : α)) post))
        = (posts.take 1200).map (fun post =>
          (post, specScore lg now (maxReactions (posts.take 1200)) post)) := by
    refine List.map_congr_left fun p hp => ?_
    have hr : 0 ≤ postReactions p := hreact p (List.mem_of_mem_take hp)
    unfold seedScore specScore computeRecencyScore computeEngagementScore
      specRecency specEngagement
    by_cases hmax : maxReactions (posts.take 1200) = 0
    · rw [hmax]
      rw [if_pos (by simpa using hlg0), if_pos rfl]
      exact congrArg (Prod.mk p) (by ring)
    · have hmaxpos : 0 < maxReactions (posts.take 1200) :=
        lt_of_le_of_ne (maxReactions_nonneg _) (Ne.symm hmax)
      have hcast : (0 : α) < ((maxReactions (posts.take 1200) : Int) : α) := by
        exact_mod_cast hmaxpos
      rw [if_neg (not_le.mpr (hlgpos _ hcast)), if_neg hmax, max_eq_right hr]
      exact congrArg (Prod.mk p) (by ring)
  unfold pickSeedCandidates pickSeedCandidatesSpec
  dsimp only
  rw [hpool, hscored]
  rfl

/-- C10, witness at a concrete input (over `ℚ` with `lg := id`, which satisfies the
hypotheses on `log1p`). -/
theorem pickSeedCandidates_matches_spec_witness :
    pickSeedCandidates (α := ℚ) id 0 [chanA1, ownPostC1]
      = pickSeedCandidatesSpec (α := ℚ) id 0 [chanA1, ownPostC1] :=
  pickSeedCandidates_matches_spec id 0 [chanA1, ownPostC1] (by norm_num)
    (fun x hx => hx) (by decide)

end SailAway
